import Mathlib

/-!
# udplogd: a UDP logging daemon

A verification development over `src/udplogd.c` and `src/udplogd.h`.

* Part I embeds the worker loop `udp_printer` as a labelled transition system over any
  number of workers that share the mutex `gary` and the stream `stdout`.
* Part II embeds the sequential code of `main` and of the SIGTERM handler
  `stop_lissenin` as sequences of library calls acting on a process state.
-/

namespace Udplogd

/-! ## Constants of `udplogd.h` -/

/-- The port of the daemon: `#define UDP_LOGGER_PORT 60011`. -/
def UDP_LOGGER_PORT : Nat := 60011

/-- The size of the receive buffer of a worker: `#define MAX_MSG_BUFF 65507`. -/
def MAX_MSG_BUFF : Nat := 65507

/-- The number of workers: `#define NTHREADS 5`. -/
def NTHREADS : Nat := 5

/-- The status `EXIT_SUCCESS` of `<stdlib.h>`. -/
def EXIT_SUCCESS : Int := 0

/-- The status `EXIT_FAILURE` of `<stdlib.h>`. -/
def EXIT_FAILURE : Int := 1

/-- Width in bits of `size_t`, the type of the count parameter of `fwrite`; the source does
not fix it, 64 is the value on the LP64 platforms the daemon is built for. -/
def SIZE_BITS : Nat := 64

/-- An `unsigned char`. -/
abbrev Byte := Fin 256

/-- Conversion of an `int` to an unsigned type of the given width (reduction modulo
`2 ^ bits`), as happens to `nbytes` in the call `fwrite(buff, 1, nbytes, stdout)`. -/
def toSizeT (bits : Nat) (x : Int) : Nat := (x % (2 ^ bits : Int)).toNat

/-! ## Part I: the worker loop `udp_printer` -/

/-- The call of the loop body of `udp_printer` that a worker executes next
(source lines 53, 59, 60, 63, 64, 67, 68). -/
inductive Pc where
  | recvfrom
  | disable
  | lock
  | fwrite
  | fflush
  | unlock
  | enable
  deriving DecidableEq

/-- The state of one thread running `udp_printer`: its position in the loop, its locals
`buff` and `nbytes`, and its cancellation state as kept by the thread library. -/
structure Worker where
  pc : Pc
  buff : List Byte
  nbytes : Int
  cancelEnabled : Bool
  cancelPending : Bool
  alive : Bool

/-- A thread that has just entered `udp_printer`: `buff = {0}`, `nbytes = 0`, cancellation
enabled (the default of a new thread), about to call `recvfrom`. -/
def Worker.init : Worker :=
  { pc := .recvfrom, buff := List.replicate MAX_MSG_BUFF 0, nbytes := 0,
    cancelEnabled := true, cancelPending := false, alive := true }

/-- The buffer after `recvfrom(socket_fd, buff, MAX_MSG_BUFF, ...)` has stored the datagram
`d`: at most `MAX_MSG_BUFF` bytes are copied to the front, the rest of `buff` is kept. -/
def recvInto (buff d : List Byte) : List Byte :=
  d.take MAX_MSG_BUFF ++ buff.drop (d.take MAX_MSG_BUFF).length

/-- The value `recvfrom` returns for the datagram `d`: the number of bytes stored. -/
def recvCount (d : List Byte) : Int := ((d.take MAX_MSG_BUFF).length : Nat)

/-- The shared state the workers act on: the threads, the owner of the mutex `gary`, the
stream `stdout` (its stdio buffer and the bytes it has appended to the log file), and the
bytes written to `stderr`, the stream on which `main` reports errors and which it redirects
to the same file. -/
structure Sys where
  workers : List Worker
  gary : Option Nat
  stdoutBuf : List Byte
  log : List Byte
  stderrOut : List Byte

/-- The system with `n` workers just started. -/
def Sys.init (n : Nat) : Sys :=
  { workers := List.replicate n Worker.init, gary := none, stdoutBuf := [], log := [],
    stderrOut := [] }

/-- Replace worker `i`. -/
def Sys.setWorker (s : Sys) (i : Nat) (w : Worker) : Sys :=
  { s with workers := s.workers.set i w }

/-- One atomic step of the system. Worker steps are the calls of the loop body; `recv` and
`recvFail` are the two ways `recvfrom` returns; `cancel` is `pthread_cancel` issued by
another thread; `actCancel` is the thread library ending the worker at a cancellation
point. -/
inductive Ev where
  | recv (i : Nat) (d : List Byte)
  | recvFail (i : Nat)
  | disable (i : Nat)
  | lock (i : Nat)
  | write (i : Nat)
  | flush (i : Nat)
  | unlock (i : Nat)
  | enable (i : Nat)
  | cancel (i : Nat)
  | actCancel (i : Nat)

/-- Why a step has no successor state. -/
inductive Stuck where
  | notEnabled
  | undefinedBehaviour
  deriving DecidableEq

/-- The step of a live worker `w` with index `i` on its own call, given the mutex owner and
the stream; `notEnabled` stands for a call that is not the next one of the worker.

* line 53 `nbytes = recvfrom(...)`: stores the datagram and its length, or `-1`;
  with cancellation enabled and a request pending, the thread may end here instead;
* line 59 `pthread_setcancelstate(PTHREAD_CANCEL_DISABLE, ...)`;
* line 60 `pthread_mutex_lock(&gary)`: enabled only while nobody owns the mutex;
* line 63 `fwrite(buff, 1, nbytes, stdout)`: `nbytes` is converted to `size_t`; reading more
  than `sizeof buff = MAX_MSG_BUFF` bytes from `buff` has no defined behaviour;
* line 64 `fflush(stdout)`;
* line 67 `pthread_mutex_unlock(&gary)`;
* line 68 `pthread_setcancelstate(PTHREAD_CANCEL_ENABLE, ...)`, then back to line 53. -/
def Sys.workerStep (s : Sys) (i : Nat) (w : Worker) : Ev → Except Stuck Sys
  | .recv _ d =>
    if w.pc = .recvfrom then
      .ok (s.setWorker i { w with buff := recvInto w.buff d, nbytes := recvCount d, pc := .disable })
    else .error .notEnabled
  | .recvFail _ =>
    if w.pc = .recvfrom then
      .ok (s.setWorker i { w with nbytes := -1, pc := .disable })
    else .error .notEnabled
  | .disable _ =>
    if w.pc = .disable then
      .ok (s.setWorker i { w with cancelEnabled := false, pc := .lock })
    else .error .notEnabled
  | .lock _ =>
    if w.pc = .lock then
      if s.gary = none then
        .ok ({ s with gary := some i }.setWorker i { w with pc := .fwrite })
      else .error .notEnabled
    else .error .notEnabled
  | .write _ =>
    if w.pc = .fwrite then
      if toSizeT SIZE_BITS w.nbytes ≤ MAX_MSG_BUFF then
        .ok ({ s with stdoutBuf := s.stdoutBuf ++ w.buff.take (toSizeT SIZE_BITS w.nbytes) }.setWorker i
          { w with pc := .fflush })
      else .error .undefinedBehaviour
    else .error .notEnabled
  | .flush _ =>
    if w.pc = .fflush then
      .ok ({ s with log := s.log ++ s.stdoutBuf, stdoutBuf := [] }.setWorker i { w with pc := .unlock })
    else .error .notEnabled
  | .unlock _ =>
    if w.pc = .unlock then
      if s.gary = some i then
        .ok ({ s with gary := none }.setWorker i { w with pc := .enable })
      else .error .undefinedBehaviour
    else .error .notEnabled
  | .enable _ =>
    if w.pc = .enable then
      .ok (s.setWorker i { w with cancelEnabled := true, pc := .recvfrom })
    else .error .notEnabled
  | .cancel _ => .error .notEnabled
  | .actCancel _ =>
    if w.pc = .recvfrom ∧ w.cancelEnabled = true ∧ w.cancelPending = true then
      .ok (s.setWorker i { w with alive := false })
    else .error .notEnabled

/-- The worker an event belongs to. -/
def Ev.who : Ev → Nat
  | .recv i _ => i
  | .recvFail i => i
  | .disable i => i
  | .lock i => i
  | .write i => i
  | .flush i => i
  | .unlock i => i
  | .enable i => i
  | .cancel i => i
  | .actCancel i => i

/-- One step of the system: `cancel i` marks a cancellation request for worker `i`; every
other event is a step of a live worker. -/
def Sys.step (s : Sys) (e : Ev) : Except Stuck Sys :=
  match s.workers[e.who]? with
  | none => .error .notEnabled
  | some w =>
    match e with
    | .cancel i => .ok (s.setWorker i { w with cancelPending := true })
    | e => if w.alive = true then s.workerStep e.who w e else .error .notEnabled

/-- Run a schedule, that is a list of events, from a state. -/
def run (s : Sys) : List Ev → Except Stuck Sys
  | [] => .ok s
  | e :: es =>
    match s.step e with
    | .ok s1 => run s1 es
    | .error x => .error x

/-- The events of one iteration of worker `i` that receives the datagram `d`, in program
order. -/
def iteration (i : Nat) (d : List Byte) : List Ev :=
  [.recv i d, .disable i, .lock i, .write i, .flush i, .unlock i, .enable i]

/-- Whether a run reached its end. -/
def ranOk : Except Stuck Sys → Bool
  | .ok _ => true
  | .error _ => false

/-! ### What a schedule says about the datagrams

These functions read a schedule only; `cur i` is the payload worker `i` got from its last
receive, and `none` when that receive failed or has not taken place. -/

/-- The datagram the event receives, if it is a successful receive. -/
def Ev.received : Ev → List (List Byte)
  | .recv _ d => [d]
  | _ => []

/-- The datagrams received in a schedule, in the order of reception. -/
def recvs : List Ev → List (List Byte)
  | [] => []
  | e :: es => e.received ++ recvs es

/-- The schedule of a single worker that receives the datagrams `ds` one after the other:
the loop of `udp_printer` in program order, once per datagram. -/
def singleRun : List (List Byte) → List Ev
  | [] => []
  | d :: ds => iteration 0 d ++ singleRun ds

/-- A hundred distinct datagrams of ten bytes each. -/
def hundred : List (List Byte) := (List.range 100).map fun k => List.replicate 10 (Fin.ofNat k)

/-- The discipline of the write serializer, for every worker: it is between lock and
unlock exactly when it owns the mutex; from the lock to the re-enabling its cancellation
is disabled; at the receive and at the disabling it is enabled. -/
def Disc (s : Sys) : Prop :=
  ∀ (i : Nat) (w : Worker), s.workers[i]? = some w →
    ((w.pc = .fwrite ∨ w.pc = .fflush ∨ w.pc = .unlock) ↔ s.gary = some i) ∧
    (w.pc = .lock ∨ w.pc = .fwrite ∨ w.pc = .fflush ∨ w.pc = .unlock ∨ w.pc = .enable →
      w.cancelEnabled = false) ∧
    (w.pc = .recvfrom ∨ w.pc = .disable → w.cancelEnabled = true)

/-- The first worker of a finished run, if there is one. -/
def firstWorker : Except Stuck Sys → Option Worker
  | .ok s => s.workers[0]?
  | .error _ => none

/-- The reason a run stopped early, if it did. -/
def runFault : Except Stuck Sys → Option Stuck
  | .ok _ => none
  | .error x => some x

/-- The output of a finished run: the log, the stdio buffer of `stdout`, and `stderr`. -/
def outputs : Except Stuck Sys → Option (List Byte × List Byte × List Byte)
  | .ok s => some (s.log, s.stdoutBuf, s.stderrOut)
  | .error _ => none

/-! ## Part II: `main` and `stop_lissenin` -/

/-- What is known of one element of `pthread_t tarry[NTHREADS]`: `unset` is the
zero-initialised element in which no thread has been created. -/
inductive Thread where
  | unset
  | running
  | cancelRequested
  | joined
  deriving DecidableEq

/-- The state of the mutex `gary`. -/
inductive Mutex where
  | uninitialised
  | ready
  | destroyed
  deriving DecidableEq

/-- The diagnostics of `main`, one per `fprintf(stderr, ...)` or `perror(...)` of the source
(lines 122, 133, 145, 174, 192, 201, 244). -/
inductive Diag where
  | bindFailed
  | pidFileExists
  | forkFailed
  | logOpenFailed
  | setsidFailed
  | chdirFailed
  | createFailed
  deriving DecidableEq

/-- The process state that `main` and `stop_lissenin` act on: the globals of the source
(`socket_fd`, `tarry`, `gary`, `log_file`, where `none` is `NULL`) and what the C library
and the kernel keep for the process. Streams are named by numbers. The field `caller` is
the thread that makes the calls: `none` is the main thread, `some (k, c)` is worker `k`,
when `stop_lissenin` runs in it, with `c` telling whether its cancellation was enabled
when the signal interrupted it. `main` blocks every signal but SIGTERM before it creates
the workers (lines 223 to 227), so SIGTERM is unblocked in each of them as well. -/
structure Proc where
  socket_fd : Int
  socketOpen : Bool
  tarry : List Thread
  gary : Mutex
  log_file : Option Nat
  openStreams : List Nat
  handlerInstalled : Bool
  flushedAll : Bool
  diags : List Diag
  status : Option Int
  caller : Option (Nat × Bool) := none
  deriving DecidableEq

/-- The process as `main` is entered: the globals are zero-initialised. -/
def Proc.start : Proc :=
  { socket_fd := 0, socketOpen := false, tarry := List.replicate NTHREADS .unset,
    gary := .uninitialised, log_file := none, openStreams := [], handlerInstalled := false,
    flushedAll := false, diags := [], status := none }

/-- The library calls of `main` and of `stop_lissenin`, with the value returned where the
code uses it. `fopenLog` is line 170, whose result goes to the variable `log_file` declared
in `main` (line 105); `fcloseLog` is line 96, whose argument is the global `log_file`
(line 38). -/
inductive Call where
  | socket (ret : Int)
  | bind (ret : Int)
  | fprintfStderr (d : Diag)
  | perror (d : Diag)
  | exit (code : Int)
  | stat (ret : Int)
  | fopenPid (f : Option Nat)
  | closeSocket
  | fork (ret : Int)
  | umask
  | getpid
  | fprintfPid (f : Option Nat)
  | fclosePid (f : Option Nat)
  | fopenLog (f : Option Nat)
  | freopenStderr
  | freopenStdout
  | closeStdin
  | setsid (ret : Int)
  | chdir (ret : Int)
  | sigaction
  | sigmask
  | mutexInit
  | create (i : Nat) (ret : Int)
  | sleepLoop
  | cancel (i : Nat)
  | join (i : Nat)
  | mutexDestroy
  | fflushAll
  | fcloseLog
  deriving DecidableEq

/-- Why a call has no successor state: its behaviour is undefined, or it never returns. -/
inductive Fault where
  | undefined
  | blocked
  deriving DecidableEq

/-- Close the stream `f`: undefined for `NULL` and for a stream that is not open. -/
def Proc.fclose (p : Proc) : Option Nat → Except Fault Proc
  | none => .error .undefined
  | some h =>
    if h ∈ p.openStreams then .ok { p with openStreams := p.openStreams.filter (· ≠ h) }
    else .error .undefined

/-- Whether the calling thread is a worker with cancellation enabled for which a
cancellation has been requested: such a thread is ended at its next cancellation point. -/
def Proc.callerEnds (p : Proc) : Bool :=
  match p.caller with
  | some (k, true) => decide (p.tarry[k]? = some .cancelRequested)
  | _ => false

/-- The call `pthread_join(tarry[i], NULL)`. It is a cancellation point: a calling worker
with a cancellation pending and enabled is ended in it, and the call never returns.
Joining the calling thread itself is undefined. Otherwise the call returns once the
thread has ended, which a worker does only when it has been cancelled. -/
def Proc.join (p : Proc) (i : Nat) : Except Fault Proc :=
  if p.callerEnds = true then .error .blocked
  else if p.caller.map Prod.fst = some i then .error .undefined
  else
    match p.tarry[i]? with
    | some .cancelRequested => .ok { p with tarry := p.tarry.set i .joined }
    | some .running => .error .blocked
    | _ => .error .undefined

/-- The effect of one library call on the process state. -/
def Proc.call (p : Proc) : Call → Except Fault Proc
  | .socket ret => .ok { p with socket_fd := ret, socketOpen := decide (0 ≤ ret) }
  | .bind _ => .ok p
  | .fprintfStderr d => .ok { p with diags := p.diags ++ [d] }
  | .perror d => .ok { p with diags := p.diags ++ [d] }
  | .exit code => .ok { p with status := some code, flushedAll := true, openStreams := [] }
  | .stat _ => .ok p
  | .fopenPid f =>
    match f with
    | some h => .ok { p with openStreams := h :: p.openStreams }
    | none => .ok p
  | .closeSocket => .ok { p with socketOpen := false }
  | .fork _ => .ok p
  | .umask => .ok p
  | .getpid => .ok p
  | .fprintfPid f =>
    match f with
    | some _ => .ok p
    | none => .error .undefined
  | .fclosePid f => p.fclose f
  | .fopenLog f =>
    match f with
    | some h => .ok { p with openStreams := h :: p.openStreams }
    | none => .ok p
  | .freopenStderr => .ok p
  | .freopenStdout => .ok p
  | .closeStdin => .ok p
  | .setsid _ => .ok p
  | .chdir _ => .ok p
  | .sigaction => .ok { p with handlerInstalled := true }
  | .sigmask => .ok p
  | .mutexInit => .ok { p with gary := .ready }
  | .create i ret =>
    if ret = 0 then
      if i < p.tarry.length then .ok { p with tarry := p.tarry.set i .running }
      else .error .undefined
    else .ok p
  | .sleepLoop => .ok p
  | .cancel i =>
    match p.tarry[i]? with
    | some .running => .ok { p with tarry := p.tarry.set i .cancelRequested }
    | some .cancelRequested => .ok p
    | _ => .error .undefined
  | .join i => p.join i
  | .mutexDestroy =>
    match p.gary with
    | .ready => .ok { p with gary := .destroyed }
    | _ => .error .undefined
  | .fflushAll => .ok { p with flushedAll := true }
  | .fcloseLog => p.fclose p.log_file

/-- The states a process goes through while it executes the calls: the state it starts
from, then the state after each call, up to a call that has no successor state. -/
def reached (p : Proc) : List Call → List Proc
  | [] => [p]
  | c :: cs =>
    match p.call c with
    | .ok q => p :: reached q cs
    | .error _ => [p]

/-- The last state reached, and what stopped the execution if it did not reach the end of
the calls. -/
def finish (p : Proc) : List Call → Proc × Option Fault
  | [] => (p, none)
  | c :: cs =>
    match p.call c with
    | .ok q => finish q cs
    | .error f => (p, some f)

/-- The handler `stop_lissenin` (lines 72 to 100): straight-line code with two counted
loops over the `NTHREADS` elements of `tarry`. -/
def stop_lissenin : List Call :=
  [.closeSocket] ++ (List.range NTHREADS).map .cancel ++ (List.range NTHREADS).map .join ++
    [.mutexDestroy, .fflushAll, .fcloseLog, .exit EXIT_SUCCESS]

/-- The values returned to `main` by the calls whose result it tests or keeps. -/
structure Env where
  socketRet : Int
  bindRet : Int
  statRet : Int
  pidFile : Option Nat
  forkRet : Int
  logFile : Option Nat
  setsidRet : Int
  chdirRet : Int
  createRet : Nat → Int

/-- The loop of lines 241 to 247 from index `i`, with `k` iterations left, followed by the
endless sleep of lines 250 to 252. -/
def createThreads (env : Env) : Nat → Nat → List Call
  | 0, _ => [.sleepLoop]
  | k + 1, i =>
    .create i (env.createRet i) ::
      if env.createRet i ≠ 0 then [.perror .createFailed, .exit EXIT_FAILURE]
      else createThreads env k (i + 1)

/-- The calls of `main` (lines 102 to 259) in the order it makes them, given what they
return. The variables `log_file` and `pid_file` of line 105 are local to `main`: no call
in it assigns the global `log_file`. -/
def main (env : Env) : List Call :=
  .socket env.socketRet :: .bind env.bindRet ::
  if env.bindRet ≠ 0 then [.fprintfStderr .bindFailed, .exit EXIT_FAILURE]
  else .stat env.statRet ::
  if env.statRet = 0 then [.perror .pidFileExists, .closeSocket, .exit EXIT_FAILURE]
  else .fopenPid env.pidFile :: .fork env.forkRet ::
  if env.forkRet < 0 then [.perror .forkFailed, .closeSocket, .exit EXIT_FAILURE]
  else if env.forkRet > 0 then [.exit EXIT_SUCCESS]
  else .umask :: .getpid :: .fprintfPid env.pidFile :: .fclosePid env.pidFile ::
    .fopenLog env.logFile ::
  if env.logFile = none then [.perror .logOpenFailed, .exit EXIT_FAILURE]
  else .freopenStderr :: .freopenStdout :: .closeStdin :: .setsid env.setsidRet ::
  if env.setsidRet < 0 then [.perror .setsidFailed, .exit EXIT_FAILURE]
  else .chdir env.chdirRet ::
  if env.chdirRet < 0 then [.perror .chdirFailed, .exit EXIT_FAILURE]
  else .sigaction :: .sigmask :: .mutexInit :: createThreads env NTHREADS 0

/-- A start in which every call succeeds: the socket is descriptor 3, the PID file is
stream 1 and the log is stream 2. -/
def Env.allOk : Env :=
  { socketRet := 3, bindRet := 0, statRet := -1, pidFile := some 1, forkRet := 0,
    logFile := some 2, setsidRet := 1, chdirRet := 0, createRet := fun _ => 0 }

/-- Whether the call creates, cancels or joins a thread. -/
def Call.onThreads : Call → Bool
  | .create _ _ => true
  | .cancel _ => true
  | .join _ => true
  | _ => false

/-- The order of the teardown read off a state, for the log stream `h`: a step of the
teardown has taken place only if the steps before it have. -/
def TornDownInOrder (h : Nat) (q : Proc) : Prop :=
  ((∃ t ∈ q.tarry, t ≠ .running) → q.socketOpen = false) ∧
  (.joined ∈ q.tarry → .running ∉ q.tarry) ∧
  ((q.gary = .destroyed ∨ h ∉ q.openStreams) → q.tarry = List.replicate NTHREADS .joined) ∧
  (q.flushedAll = true → q.gary = .destroyed) ∧
  (h ∉ q.openStreams → q.flushedAll = true) ∧
  (q.status ≠ none → h ∉ q.openStreams)

/-! # Theorems -/

/-! ### Inversion of the step function -/

theorem step_worker {s s1 : Sys} {e : Ev} (h : s.step e = .ok s1) :
    ∃ w, s.workers[e.who]? = some w := by
  unfold Sys.step at h
  split at h
  · simp at h
  · rename_i w hw
    exact ⟨w, hw⟩

theorem step_recv {s s1 : Sys} {i : Nat} {d : List Byte} (h : s.step (.recv i d) = .ok s1) :
    ∃ w, s.workers[i]? = some w ∧ w.alive = true ∧ w.pc = .recvfrom ∧
      s1 = s.setWorker i { w with buff := recvInto w.buff d, nbytes := recvCount d, pc := .disable } := by
  unfold Sys.step at h
  simp only [Ev.who] at h
  split at h
  · simp at h
  · rename_i w hw
    simp only [Sys.workerStep] at h
    split_ifs at h with h1 h2
    simp at h
    exact ⟨w, hw, h1, h2, h.symm⟩

theorem step_recvFail {s s1 : Sys} {i : Nat} (h : s.step (.recvFail i) = .ok s1) :
    ∃ w, s.workers[i]? = some w ∧ w.alive = true ∧ w.pc = .recvfrom ∧
      s1 = s.setWorker i { w with nbytes := -1, pc := .disable } := by
  unfold Sys.step at h
  simp only [Ev.who] at h
  split at h
  · simp at h
  · rename_i w hw
    simp only [Sys.workerStep] at h
    split_ifs at h with h1 h2
    simp at h
    exact ⟨w, hw, h1, h2, h.symm⟩

theorem step_disable {s s1 : Sys} {i : Nat} (h : s.step (.disable i) = .ok s1) :
    ∃ w, s.workers[i]? = some w ∧ w.alive = true ∧ w.pc = .disable ∧
      s1 = s.setWorker i { w with cancelEnabled := false, pc := .lock } := by
  unfold Sys.step at h
  simp only [Ev.who] at h
  split at h
  · simp at h
  · rename_i w hw
    simp only [Sys.workerStep] at h
    split_ifs at h with h1 h2
    simp at h
    exact ⟨w, hw, h1, h2, h.symm⟩

theorem step_lock {s s1 : Sys} {i : Nat} (h : s.step (.lock i) = .ok s1) :
    ∃ w, s.workers[i]? = some w ∧ w.alive = true ∧ w.pc = .lock ∧ s.gary = none ∧
      s1 = { s with gary := some i }.setWorker i { w with pc := .fwrite } := by
  unfold Sys.step at h
  simp only [Ev.who] at h
  split at h
  · simp at h
  · rename_i w hw
    simp only [Sys.workerStep] at h
    split_ifs at h with h1 h2 h3
    simp at h
    exact ⟨w, hw, h1, h2, h3, h.symm⟩

theorem step_write {s s1 : Sys} {i : Nat} (h : s.step (.write i) = .ok s1) :
    ∃ w, s.workers[i]? = some w ∧ w.alive = true ∧ w.pc = .fwrite ∧
      toSizeT SIZE_BITS w.nbytes ≤ MAX_MSG_BUFF ∧
      s1 = { s with stdoutBuf := s.stdoutBuf ++ w.buff.take (toSizeT SIZE_BITS w.nbytes) }.setWorker i
        { w with pc := .fflush } := by
  unfold Sys.step at h
  simp only [Ev.who] at h
  split at h
  · simp at h
  · rename_i w hw
    simp only [Sys.workerStep] at h
    split_ifs at h with h1 h2 h3
    simp at h
    exact ⟨w, hw, h1, h2, h3, h.symm⟩

theorem step_flush {s s1 : Sys} {i : Nat} (h : s.step (.flush i) = .ok s1) :
    ∃ w, s.workers[i]? = some w ∧ w.alive = true ∧ w.pc = .fflush ∧
      s1 = { s with log := s.log ++ s.stdoutBuf, stdoutBuf := [] }.setWorker i
        { w with pc := .unlock } := by
  unfold Sys.step at h
  simp only [Ev.who] at h
  split at h
  · simp at h
  · rename_i w hw
    simp only [Sys.workerStep] at h
    split_ifs at h with h1 h2
    simp at h
    exact ⟨w, hw, h1, h2, h.symm⟩

theorem step_unlock {s s1 : Sys} {i : Nat} (h : s.step (.unlock i) = .ok s1) :
    ∃ w, s.workers[i]? = some w ∧ w.alive = true ∧ w.pc = .unlock ∧ s.gary = some i ∧
      s1 = { s with gary := none }.setWorker i { w with pc := .enable } := by
  unfold Sys.step at h
  simp only [Ev.who] at h
  split at h
  · simp at h
  · rename_i w hw
    simp only [Sys.workerStep] at h
    split_ifs at h with h1 h2 h3
    simp at h
    exact ⟨w, hw, h1, h2, h3, h.symm⟩

theorem step_enable {s s1 : Sys} {i : Nat} (h : s.step (.enable i) = .ok s1) :
    ∃ w, s.workers[i]? = some w ∧ w.alive = true ∧ w.pc = .enable ∧
      s1 = s.setWorker i { w with cancelEnabled := true, pc := .recvfrom } := by
  unfold Sys.step at h
  simp only [Ev.who] at h
  split at h
  · simp at h
  · rename_i w hw
    simp only [Sys.workerStep] at h
    split_ifs at h with h1 h2
    simp at h
    exact ⟨w, hw, h1, h2, h.symm⟩

theorem step_cancel {s s1 : Sys} {i : Nat} (h : s.step (.cancel i) = .ok s1) :
    ∃ w, s.workers[i]? = some w ∧ s1 = s.setWorker i { w with cancelPending := true } := by
  unfold Sys.step at h
  simp only [Ev.who] at h
  split at h
  · simp at h
  · rename_i w hw
    simp at h
    exact ⟨w, hw, h.symm⟩

theorem step_actCancel {s s1 : Sys} {i : Nat} (h : s.step (.actCancel i) = .ok s1) :
    ∃ w, s.workers[i]? = some w ∧ w.alive = true ∧ w.pc = .recvfrom ∧
      w.cancelEnabled = true ∧ w.cancelPending = true ∧
      s1 = s.setWorker i { w with alive := false } := by
  unfold Sys.step at h
  simp only [Ev.who] at h
  split at h
  · simp at h
  · rename_i w hw
    simp only [Sys.workerStep] at h
    split_ifs at h with h1 h2
    simp at h
    exact ⟨w, hw, h1, h2.1, h2.2.1, h2.2.2, h.symm⟩

theorem getElem?_setWorker {s : Sys} {i : Nat} {w : Worker} (hw : s.workers[i]? = some w)
    (w1 : Worker) (j : Nat) :
    (s.setWorker i w1).workers[j]? = if j = i then some w1 else s.workers[j]? := by
  have hlt : i < s.workers.length := by
    by_contra hge
    rw [List.getElem?_eq_none (Nat.le_of_not_lt hge)] at hw
    cases hw
  by_cases hji : j = i
  · subst hji
    simp [Sys.setWorker, hlt]
  · have hij : i ≠ j := fun h => hji h.symm
    simp [Sys.setWorker, hji, hij]

/-! ### Preservation of the invariant -/

theorem toSizeT_natCast {n : Nat} (h : n ≤ MAX_MSG_BUFF) : toSizeT SIZE_BITS (n : Int) = n := by
  unfold toSizeT SIZE_BITS
  have h2 : (n : Int) < 2 ^ 64 := by
    have : n < 2 ^ 64 := lt_of_le_of_lt h (by unfold MAX_MSG_BUFF; norm_num)
    exact_mod_cast this
  rw [Int.emod_eq_of_lt (Int.ofNat_nonneg n) h2]
  simp

theorem recvCount_of_le {d : List Byte} (h : d.length ≤ MAX_MSG_BUFF) :
    recvCount d = ((d.length : Nat) : Int) := by
  unfold recvCount
  rw [List.take_of_length_le h]

theorem take_recvInto {buff d : List Byte} (h : d.length ≤ MAX_MSG_BUFF) :
    (recvInto buff d).take d.length = d := by
  unfold recvInto
  rw [List.take_of_length_le h]
  simp

theorem ranOk_iff {r : Except Stuck Sys} : ranOk r = true ↔ ∃ s, r = .ok s := by
  cases r with
  | error x => simp [ranOk]
  | ok s => simp [ranOk]

theorem run_append (s : Sys) (as bs : List Ev) :
    run s (as ++ bs) = match run s as with
      | .ok s1 => run s1 bs
      | .error x => .error x := by
  induction as generalizing s with
  | nil => rfl
  | cons a t ih =>
    simp only [List.cons_append, run]
    cases s.step a with
    | error x => rfl
    | ok s1 => exact ih s1

/-- One iteration of the only worker of a system, from its receive back to its receive. -/
theorem run_iteration (w : Worker) (l er d : List Byte) (hpc : w.pc = .recvfrom)
    (hal : w.alive = true) (hd : d.length ≤ MAX_MSG_BUFF) :
    run { workers := [w], gary := none, stdoutBuf := [], log := l, stderrOut := er } (iteration 0 d)
      = .ok { workers := [{ w with buff := recvInto w.buff d, nbytes := recvCount d,
                                   cancelEnabled := true }],
              gary := none, stdoutBuf := [], log := l ++ d, stderrOut := er } := by
  have h1 : toSizeT SIZE_BITS (recvCount d) = d.length := by
    rw [recvCount_of_le hd, toSizeT_natCast hd]
  simp [iteration, run, Sys.step, Ev.who, Sys.workerStep, Sys.setWorker, hpc, hal, h1, hd,
    take_recvInto hd]

theorem run_single (ds : List (List Byte)) (hlen : ∀ d ∈ ds, d.length ≤ MAX_MSG_BUFF)
    (w : Worker) (l er : List Byte) (hpc : w.pc = .recvfrom) (hal : w.alive = true) :
    ∃ w1, w1.pc = .recvfrom ∧
      run { workers := [w], gary := none, stdoutBuf := [], log := l, stderrOut := er } (singleRun ds)
        = .ok { workers := [w1], gary := none, stdoutBuf := [], log := l ++ ds.flatten,
                stderrOut := er } := by
  induction ds generalizing w l with
  | nil => exact ⟨w, hpc, by simp [singleRun, run]⟩
  | cons d t ih =>
    have hd : d.length ≤ MAX_MSG_BUFF := hlen d (List.mem_cons_self d t)
    obtain ⟨w1, hw1, hrun⟩ := ih (fun x hx => hlen x (List.mem_cons_of_mem d hx))
      { w with buff := recvInto w.buff d, nbytes := recvCount d, cancelEnabled := true }
      (l ++ d) hpc hal
    refine ⟨w1, hw1, ?_⟩
    rw [singleRun, run_append, run_iteration w l er d hpc hal hd]
    simp only [hrun, List.flatten_cons, List.append_assoc]

theorem recvs_singleRun (ds : List (List Byte)) : recvs (singleRun ds) = ds := by
  induction ds with
  | nil => rfl
  | cons d t ih => simpa [singleRun, iteration, recvs, Ev.received] using ih

/-- C3 (a single worker keeps the order). When the only worker receives the datagrams `ds`
one after the other, each of at most `MAX_MSG_BUFF` bytes, the run of its loop succeeds and
the log is exactly the datagrams concatenated in the order received, nothing added; the
stdio buffer is empty, and the length of the log is the sum of the lengths. -/
theorem single_worker_order (ds : List (List Byte))
    (hlen : ∀ d ∈ ds, d.length ≤ MAX_MSG_BUFF) :
    recvs (singleRun ds) = ds ∧
    ∃ s, run (Sys.init 1) (singleRun ds) = .ok s ∧ s.log = ds.flatten ∧ s.stdoutBuf = [] ∧
      s.log.length = (ds.map List.length).sum := by
  obtain ⟨w1, -, hrun⟩ := run_single ds hlen Worker.init [] [] rfl rfl
  exact ⟨recvs_singleRun ds, _, hrun, by simp, rfl, by simp⟩

/-- Witness of C3: a hundred distinct datagrams of ten bytes give a log of exactly a
thousand bytes, in the order received. -/
theorem single_worker_order_witness :
    (∀ d ∈ hundred, d.length ≤ MAX_MSG_BUFF) ∧
    ∃ s, run (Sys.init 1) (singleRun hundred) = .ok s ∧ s.log = hundred.flatten ∧
      s.log.length = 1000 := by
  have h : ∀ d ∈ hundred, d.length ≤ MAX_MSG_BUFF := by
    intro d hd
    obtain ⟨k, -, rfl⟩ := List.mem_map.1 hd
    simp [MAX_MSG_BUFF]
  obtain ⟨-, s, hrun, hlog, -, hlen⟩ := single_worker_order hundred h
  exact ⟨h, s, hrun, hlog, by rw [hlen]; decide⟩

theorem disc_replace {s s1 : Sys} {i : Nat} {w w1 : Worker}
    (hd : Disc s) (hw : s.workers[i]? = some w)
    (hws : s1.workers = s.workers.set i w1)
    (hcs : (w1.pc = .fwrite ∨ w1.pc = .fflush ∨ w1.pc = .unlock) ↔ s1.gary = some i)
    (hoff : w1.pc = .lock ∨ w1.pc = .fwrite ∨ w1.pc = .fflush ∨ w1.pc = .unlock ∨ w1.pc = .enable →
      w1.cancelEnabled = false)
    (hon : w1.pc = .recvfrom ∨ w1.pc = .disable → w1.cancelEnabled = true)
    (hoth : ∀ j, j ≠ i → (s.gary = some j ↔ s1.gary = some j)) :
    Disc s1 := by
  have hget : ∀ j, s1.workers[j]? = if j = i then some w1 else s.workers[j]? := by
    intro j
    have := getElem?_setWorker hw w1 j
    simpa [Sys.setWorker, hws] using this
  intro j wj hj
  rw [hget j] at hj
  by_cases hji : j = i
  · subst hji
    simp only [if_true, Option.some.injEq] at hj
    subst hj
    exact ⟨hcs, hoff, hon⟩
  · simp only [hji, if_false] at hj
    have h0 := hd j wj hj
    exact ⟨h0.1.trans (hoth j hji), h0.2⟩

theorem disc_step {s s1 : Sys} {e : Ev} (hd : Disc s) (h : s.step e = .ok s1) : Disc s1 := by
  cases e with
  | recv i d =>
    obtain ⟨w, hw, -, hpc, rfl⟩ := step_recv h
    have h0 := hd i w hw
    have hg : s.gary ≠ some i := fun hg => by
      have := h0.1.2 hg
      simp [hpc] at this
    refine disc_replace hd hw rfl ?_ ?_ ?_ (fun j _ => Iff.rfl)
    · simpa [Sys.setWorker] using hg
    · simp
    · intro _; exact h0.2.2 (Or.inl hpc)
  | recvFail i =>
    obtain ⟨w, hw, -, hpc, rfl⟩ := step_recvFail h
    have h0 := hd i w hw
    have hg : s.gary ≠ some i := fun hg => by
      have := h0.1.2 hg
      simp [hpc] at this
    refine disc_replace hd hw rfl ?_ ?_ ?_ (fun j _ => Iff.rfl)
    · simpa [Sys.setWorker] using hg
    · simp
    · intro _; exact h0.2.2 (Or.inl hpc)
  | disable i =>
    obtain ⟨w, hw, -, hpc, rfl⟩ := step_disable h
    have h0 := hd i w hw
    have hg : s.gary ≠ some i := fun hg => by
      have := h0.1.2 hg
      simp [hpc] at this
    refine disc_replace hd hw rfl ?_ ?_ ?_ (fun j _ => Iff.rfl)
    · simpa [Sys.setWorker] using hg
    · simp
    · simp
  | lock i =>
    obtain ⟨w, hw, -, hpc, hnone, rfl⟩ := step_lock h
    have h0 := hd i w hw
    refine disc_replace hd hw rfl ?_ ?_ ?_ ?_
    · simp [Sys.setWorker]
    · intro _; exact h0.2.1 (Or.inl hpc)
    · simp
    · intro j hji
      simp only [Sys.setWorker, hnone]
      constructor
      · intro hx; cases hx
      · intro hx; exact absurd (Option.some.inj hx).symm hji
  | write i =>
    obtain ⟨w, hw, -, hpc, -, rfl⟩ := step_write h
    have h0 := hd i w hw
    have hg : s.gary = some i := h0.1.1 (Or.inl hpc)
    refine disc_replace hd hw rfl ?_ ?_ ?_ (fun j _ => Iff.rfl)
    · simpa [Sys.setWorker] using hg
    · intro _; exact h0.2.1 (Or.inr (Or.inl hpc))
    · simp
  | flush i =>
    obtain ⟨w, hw, -, hpc, rfl⟩ := step_flush h
    have h0 := hd i w hw
    have hg : s.gary = some i := h0.1.1 (Or.inr (Or.inl hpc))
    refine disc_replace hd hw rfl ?_ ?_ ?_ (fun j _ => Iff.rfl)
    · simpa [Sys.setWorker] using hg
    · intro _; exact h0.2.1 (Or.inr (Or.inr (Or.inl hpc)))
    · simp
  | unlock i =>
    obtain ⟨w, hw, -, hpc, hg, rfl⟩ := step_unlock h
    have h0 := hd i w hw
    refine disc_replace hd hw rfl ?_ ?_ ?_ ?_
    · simp [Sys.setWorker]
    · intro _; exact h0.2.1 (Or.inr (Or.inr (Or.inr (Or.inl hpc))))
    · simp
    · intro j hji
      simp only [Sys.setWorker, hg]
      constructor
      · intro hx; exact absurd (Option.some.inj hx).symm hji
      · intro hx; cases hx
  | enable i =>
    obtain ⟨w, hw, -, hpc, rfl⟩ := step_enable h
    have h0 := hd i w hw
    have hg : s.gary ≠ some i := fun hg => by
      have := h0.1.2 hg
      simp [hpc] at this
    refine disc_replace hd hw rfl ?_ ?_ ?_ (fun j _ => Iff.rfl)
    · simpa [Sys.setWorker] using hg
    · simp
    · simp
  | cancel i =>
    obtain ⟨w, hw, rfl⟩ := step_cancel h
    have h0 := hd i w hw
    exact disc_replace hd hw rfl h0.1 h0.2.1 h0.2.2 (fun j _ => Iff.rfl)
  | actCancel i =>
    obtain ⟨w, hw, -, hpc, -, -, rfl⟩ := step_actCancel h
    have h0 := hd i w hw
    exact disc_replace hd hw rfl h0.1 h0.2.1 h0.2.2 (fun j _ => Iff.rfl)

theorem disc_init (n : Nat) : Disc (Sys.init n) := by
  intro i w hw
  have hmem : w ∈ List.replicate n Worker.init := List.getElem?_mem hw
  rw [List.eq_of_mem_replicate hmem]
  simp [Worker.init, Sys.init]

theorem disc_run {s s1 : Sys} {evs : List Ev} (hd : Disc s) (h : run s evs = .ok s1) :
    Disc s1 := by
  induction evs generalizing s with
  | nil =>
    simp only [run, Except.ok.injEq] at h
    exact h ▸ hd
  | cons e es ih =>
    simp only [run] at h
    cases hstep : s.step e with
    | error x => simp [hstep] at h
    | ok s2 =>
      simp only [hstep] at h
      exact ih (disc_step hd hstep) h

/-- C7 (discipline of the write serializer). In every state that `n` workers reach by any
interleaving, failed receives and cancellation requests included, each worker satisfies:
if it owns the mutex, its cancellation is disabled; it owns the mutex exactly when its next
call is the write, the flush that follows it, or the unlock; when it is about to lock, its
cancellation is already disabled; when it is about to re-enable cancellation, it has
released the mutex; and at the receive it does not own the mutex. -/
theorem write_serializer_discipline (n : Nat) (evs : List Ev) (s : Sys) (i : Nat) (w : Worker)
    (hrun : run (Sys.init n) evs = .ok s) (hw : s.workers[i]? = some w) :
    (s.gary = some i → w.cancelEnabled = false) ∧
    (s.gary = some i ↔ (w.pc = .fwrite ∨ w.pc = .fflush ∨ w.pc = .unlock)) ∧
    (w.pc = .lock → w.cancelEnabled = false) ∧
    (w.pc = .enable → s.gary ≠ some i ∧ w.cancelEnabled = false) ∧
    (w.pc = .recvfrom → s.gary ≠ some i ∧ w.cancelEnabled = true) := by
  have h0 := disc_run (disc_init n) hrun i w hw
  refine ⟨?_, h0.1.symm, fun h => h0.2.1 (Or.inl h), ?_, ?_⟩
  · intro hg
    rcases h0.1.2 hg with h | h | h
    · exact h0.2.1 (Or.inr (Or.inl h))
    · exact h0.2.1 (Or.inr (Or.inr (Or.inl h)))
    · exact h0.2.1 (Or.inr (Or.inr (Or.inr (Or.inl h))))
  · intro h
    refine ⟨fun hg => ?_, h0.2.1 (Or.inr (Or.inr (Or.inr (Or.inr h))))⟩
    have := h0.1.2 hg
    simp [h] at this
  · intro h
    refine ⟨fun hg => ?_, h0.2.2 (Or.inl h)⟩
    have := h0.1.2 hg
    simp [h] at this

/-- Witness of C7: a worker that has just taken the mutex, cancellation requested
meanwhile, has its cancellation disabled. -/
theorem write_serializer_discipline_witness :
    ∃ s w, run (Sys.init 2) [.recv 1 [9], .recvFail 0, .disable 0, .cancel 0, .lock 0] = .ok s ∧
      s.workers[0]? = some w ∧ s.gary = some 0 ∧ w.cancelEnabled = false ∧ w.pc = .fwrite := by
  obtain ⟨s, hs⟩ := ranOk_iff.1
    (show ranOk (run (Sys.init 2) [.recv 1 [9], .recvFail 0, .disable 0, .cancel 0, .lock 0]) = true
      by decide)
  have hq : (firstWorker (run (Sys.init 2)
      [.recv 1 [9], .recvFail 0, .disable 0, .cancel 0, .lock 0])).map (fun w => w.pc)
      = some .fwrite := by decide
  rw [hs] at hq
  obtain ⟨w, hw, hpc⟩ := Option.map_eq_some'.1 hq
  have h := write_serializer_discipline 2 _ s 0 w hs hw
  have hg : s.gary = some 0 := h.2.1.2 (Or.inl hpc)
  exact ⟨s, w, hs, hw, hg, h.1 hg, hpc⟩

theorem step_stderr {s s1 : Sys} {e : Ev} (h : s.step e = .ok s1) :
    s1.stderrOut = s.stderrOut := by
  cases e with
  | recv i d => obtain ⟨w, -, -, -, rfl⟩ := step_recv h; rfl
  | recvFail i => obtain ⟨w, -, -, -, rfl⟩ := step_recvFail h; rfl
  | disable i => obtain ⟨w, -, -, -, rfl⟩ := step_disable h; rfl
  | lock i => obtain ⟨w, -, -, -, -, rfl⟩ := step_lock h; rfl
  | write i => obtain ⟨w, -, -, -, -, rfl⟩ := step_write h; rfl
  | flush i => obtain ⟨w, -, -, -, rfl⟩ := step_flush h; rfl
  | unlock i => obtain ⟨w, -, -, -, -, rfl⟩ := step_unlock h; rfl
  | enable i => obtain ⟨w, -, -, -, rfl⟩ := step_enable h; rfl
  | cancel i => obtain ⟨w, -, rfl⟩ := step_cancel h; rfl
  | actCancel i => obtain ⟨w, -, -, -, -, -, rfl⟩ := step_actCancel h; rfl

/-- A step replaces the worker of its event and no other. -/
theorem step_frame {s s1 : Sys} {e : Ev} (h : s.step e = .ok s1) :
    ∃ w w1, s.workers[e.who]? = some w ∧ s1.workers = s.workers.set e.who w1 ∧
      (w1.alive = w.alive ∨
        (e = .actCancel e.who ∧ w.pc = .recvfrom ∧ w.cancelEnabled = true ∧
          w.cancelPending = true)) := by
  cases e with
  | recv i d => obtain ⟨w, hw, -, -, rfl⟩ := step_recv h; exact ⟨w, _, hw, rfl, Or.inl rfl⟩
  | recvFail i => obtain ⟨w, hw, -, -, rfl⟩ := step_recvFail h; exact ⟨w, _, hw, rfl, Or.inl rfl⟩
  | disable i => obtain ⟨w, hw, -, -, rfl⟩ := step_disable h; exact ⟨w, _, hw, rfl, Or.inl rfl⟩
  | lock i => obtain ⟨w, hw, -, -, -, rfl⟩ := step_lock h; exact ⟨w, _, hw, rfl, Or.inl rfl⟩
  | write i => obtain ⟨w, hw, -, -, -, rfl⟩ := step_write h; exact ⟨w, _, hw, rfl, Or.inl rfl⟩
  | flush i => obtain ⟨w, hw, -, -, rfl⟩ := step_flush h; exact ⟨w, _, hw, rfl, Or.inl rfl⟩
  | unlock i => obtain ⟨w, hw, -, -, -, rfl⟩ := step_unlock h; exact ⟨w, _, hw, rfl, Or.inl rfl⟩
  | enable i => obtain ⟨w, hw, -, -, rfl⟩ := step_enable h; exact ⟨w, _, hw, rfl, Or.inl rfl⟩
  | cancel i => obtain ⟨w, hw, rfl⟩ := step_cancel h; exact ⟨w, _, hw, rfl, Or.inl rfl⟩
  | actCancel i =>
    obtain ⟨w, hw, -, hpc, hce, hcp, rfl⟩ := step_actCancel h
    exact ⟨w, _, hw, rfl, Or.inr ⟨rfl, hpc, hce, hcp⟩⟩

theorem step_recvFail_ok {s : Sys} {i : Nat} {w : Worker} (hw : s.workers[i]? = some w)
    (hal : w.alive = true) (hpc : w.pc = .recvfrom) :
    s.step (.recvFail i) = .ok (s.setWorker i { w with nbytes := -1, pc := .disable }) := by
  simp [Sys.step, Ev.who, hw, hal, Sys.workerStep, hpc]

theorem step_disable_ok {s : Sys} {i : Nat} {w : Worker} (hw : s.workers[i]? = some w)
    (hal : w.alive = true) (hpc : w.pc = .disable) :
    s.step (.disable i) = .ok (s.setWorker i { w with cancelEnabled := false, pc := .lock }) := by
  simp [Sys.step, Ev.who, hw, hal, Sys.workerStep, hpc]

/-- Counterexample to C4: a worker whose receive fails is not ended. It is alive with
`nbytes = -1` at the disabling of cancellation, and two steps later at the write. -/
theorem failed_receive_does_not_end_worker :
    (¬ ∀ s1 w1, (Sys.init 1).step (.recvFail 0) = .ok s1 → s1.workers[0]? = some w1 →
        w1.alive = false) ∧
    (firstWorker ((Sys.init 1).step (.recvFail 0))).map (fun w => (w.alive, w.pc, w.nbytes))
      = some (true, .disable, -1) ∧
    (firstWorker (run (Sys.init 1) [.recvFail 0, .disable 0, .lock 0])).map
      (fun w => (w.alive, w.pc, w.nbytes)) = some (true, .fwrite, -1) := by
  refine ⟨?_, by decide, by decide⟩
  intro h
  have h1 := h _ { Worker.init with nbytes := -1, pc := .disable }
    (step_recvFail_ok (s := Sys.init 1) (i := 0) (w := Worker.init) rfl rfl rfl) rfl
  simp [Worker.init] at h1

/-- C4 as amended. A failed receive does not end a live worker: it stores `-1` in `nbytes`
and goes on to the disabling of cancellation, as after a successful receive. A live worker
is ended by no step but the cancellation acted on at its receive, with cancellation
enabled and a request pending. -/
theorem worker_ends_only_by_cancellation (s : Sys) (i : Nat) (w : Worker)
    (hw : s.workers[i]? = some w) (hal : w.alive = true) :
    (w.pc = .recvfrom →
      ∃ s1, s.step (.recvFail i) = .ok s1 ∧
        s1.workers[i]? = some { w with nbytes := -1, pc := .disable }) ∧
    (∀ e s1 w1, s.step e = .ok s1 → s1.workers[i]? = some w1 → w1.alive = false →
      e = .actCancel i ∧ w.pc = .recvfrom ∧ w.cancelEnabled = true ∧ w.cancelPending = true) := by
  constructor
  · intro hpc
    exact ⟨_, step_recvFail_ok hw hal hpc, by rw [getElem?_setWorker hw]; simp⟩
  · intro e s1 w1 hstep hw1 hdead
    obtain ⟨w0, w2, hw0, hws, hframe⟩ := step_frame hstep
    have hget := getElem?_setWorker hw0 w2 i
    simp only [Sys.setWorker, ← hws] at hget
    rw [hget] at hw1
    by_cases hi : i = e.who
    · subst hi
      simp only [if_true, Option.some.injEq] at hw1
      subst hw1
      rw [hw] at hw0
      cases hw0
      rcases hframe with h | h
      · rw [h, hal] at hdead; cases hdead
      · exact h
    · simp only [hi, if_false] at hw1
      rw [hw] at hw1
      cases hw1
      rw [hal] at hdead
      cases hdead

/-- Witness of C4 as amended: the second of two workers, at its first receive. -/
theorem worker_ends_only_by_cancellation_witness :
    ∃ s1, (Sys.init 2).step (.recvFail 1) = .ok s1 ∧
      s1.workers[1]? = some { Worker.init with nbytes := -1, pc := .disable } :=
  (worker_ends_only_by_cancellation (Sys.init 2) 1 Worker.init rfl rfl).1 rfl

/-- Counterexample to C8: after a failed receive nothing has been written to the log, to
the stdio buffer or to `stderr`, and the worker is not at its next receive but on its way
to the write, whose count `(size_t)-1` leaves it without defined behaviour. -/
theorem failed_receive_is_not_logged :
    outputs ((Sys.init 1).step (.recvFail 0)) = some ([], [], []) ∧
    (firstWorker ((Sys.init 1).step (.recvFail 0))).map (fun w => w.pc) = some .disable ∧
    outputs (run (Sys.init 1) [.recvFail 0, .disable 0, .lock 0]) = some ([], [], []) ∧
    runFault (run (Sys.init 1) [.recvFail 0, .disable 0, .lock 0, .write 0])
      = some .undefinedBehaviour := by
  decide

/-- C8 as amended. A failed receive of a live worker writes nothing, neither to the log
nor to `stderr`, and does not end the worker: it goes on to disable cancellation, exactly as
after a successful receive, still without output. No step of any worker writes to
`stderr`. -/
theorem failed_receive_silent_and_not_fatal (s : Sys) (i : Nat) (w : Worker)
    (hw : s.workers[i]? = some w) (hal : w.alive = true) (hpc : w.pc = .recvfrom) :
    (∃ s1, s.step (.recvFail i) = .ok s1 ∧
      s1.log = s.log ∧ s1.stdoutBuf = s.stdoutBuf ∧ s1.stderrOut = s.stderrOut ∧
      s1.workers[i]? = some { w with nbytes := -1, pc := .disable } ∧
      ∃ s2, s1.step (.disable i) = .ok s2 ∧
        s2.log = s.log ∧ s2.stdoutBuf = s.stdoutBuf ∧ s2.stderrOut = s.stderrOut ∧
        s2.workers[i]? = some { w with nbytes := -1, cancelEnabled := false, pc := .lock }) ∧
    (∀ e s1, s.step e = .ok s1 → s1.stderrOut = s.stderrOut) := by
  refine ⟨⟨_, step_recvFail_ok hw hal hpc, rfl, rfl, rfl, by rw [getElem?_setWorker hw]; simp,
    ?_⟩, fun e s1 h => step_stderr h⟩
  have hw1 : (s.setWorker i { w with nbytes := -1, pc := .disable }).workers[i]?
      = some { w with nbytes := -1, pc := .disable } := by
    rw [getElem?_setWorker hw]; simp
  refine ⟨(s.setWorker i { w with nbytes := -1, pc := .disable }).setWorker i
    { w with nbytes := -1, cancelEnabled := false, pc := .lock }, ?_, rfl, rfl, rfl, ?_⟩
  · exact step_disable_ok hw1 hal rfl
  · rw [getElem?_setWorker hw1]; simp

/-- Witness of C8 as amended: the second of two workers, at its first receive. -/
theorem failed_receive_silent_and_not_fatal_witness :
    ∃ s1, (Sys.init 2).step (.recvFail 1) = .ok s1 ∧
      s1.log = [] ∧ s1.stdoutBuf = [] ∧ s1.stderrOut = [] ∧
      s1.workers[1]? = some { Worker.init with nbytes := -1, pc := .disable } := by
  obtain ⟨s1, h1, h2, h3, h4, h5, -⟩ :=
    (failed_receive_silent_and_not_fatal (Sys.init 2) 1 Worker.init rfl rfl rfl).1
  exact ⟨s1, h1, h2, h3, h4, h5⟩

/-- C10 (the code at the failing input). When `recvfrom` returns `-1`, the count that
`fwrite` gets is `2 ^ 64 - 1` for a `size_t` of 64 bits and `2 ^ 32 - 1` for one of 32 bits,
more than the `MAX_MSG_BUFF` bytes of `buff`: the worker reaches the write with
`nbytes = -1`, and the write has no defined behaviour. -/
theorem fwrite_count_after_failed_receive :
    toSizeT 64 (-1) = 18446744073709551615 ∧ toSizeT 32 (-1) = 4294967295 ∧
    MAX_MSG_BUFF < toSizeT SIZE_BITS (-1) ∧
    (firstWorker (run (Sys.init 1) [.recvFail 0, .disable 0, .lock 0])).map
      (fun w => (w.pc, w.nbytes)) = some (.fwrite, -1) ∧
    runFault (run (Sys.init 1) [.recvFail 0, .disable 0, .lock 0, .write 0])
      = some .undefinedBehaviour := by
  decide

/-- C2 (the code at the failing input). `stop_lissenin` makes its fifteen calls in the
order close the socket, cancel each worker, join each worker, destroy the mutex, flush,
`fclose(log_file)`, `exit(EXIT_SUCCESS)`. Entered by the main thread in the state that
`main` reaches when every call of the start succeeds, it completes the first thirteen and
stops at `fclose(log_file)`, whose argument is `NULL` there: the log, stream `2`, is not
closed and the process does not exit. In each of the fourteen states on the way a step
of the teardown has taken place only if the steps before it have; in particular the mutex
is destroyed only when all `NTHREADS` workers are joined. -/
theorem teardown_stops_at_fclose :
    stop_lissenin =
      [.closeSocket, .cancel 0, .cancel 1, .cancel 2, .cancel 3, .cancel 4,
       .join 0, .join 1, .join 2, .join 3, .join 4,
       .mutexDestroy, .fflushAll, .fcloseLog, .exit EXIT_SUCCESS] ∧
    (finish Proc.start (main Env.allOk)).2 = none ∧
    (reached (finish Proc.start (main Env.allOk)).1 stop_lissenin).length = 14 ∧
    (∀ q ∈ reached (finish Proc.start (main Env.allOk)).1 stop_lissenin,
      TornDownInOrder 2 q ∧ q.status = none) ∧
    (finish (finish Proc.start (main Env.allOk)).1 stop_lissenin).2 = some .undefined ∧
    (finish (finish Proc.start (main Env.allOk)).1 stop_lissenin).1.gary = .destroyed ∧
    (finish (finish Proc.start (main Env.allOk)).1 stop_lissenin).1.flushedAll = true ∧
    2 ∈ (finish (finish Proc.start (main Env.allOk)).1 stop_lissenin).1.openStreams ∧
    (finish (finish Proc.start (main Env.allOk)).1 stop_lissenin).1.status = none := by
  refine ⟨by decide, by decide, by decide, ?_, by decide, by decide, by decide, by decide,
    by decide⟩
  simp only [TornDownInOrder]
  decide

/-- The teardown when SIGTERM is handled in a worker, here worker `0` interrupted with its
cancellation enabled, as it is at its receive: after the socket is closed and the five
cancellations are requested, its own among them, the first `pthread_join` is a
cancellation point at which the worker is ended. The handler does not return from it: the
mutex is not destroyed, the log is not closed and the process does not exit. -/
theorem teardown_in_a_worker_stops_at_the_first_join :
    (reached { (finish Proc.start (main Env.allOk)).1 with caller := some (0, true) }
      stop_lissenin).length = 7 ∧
    finish { (finish Proc.start (main Env.allOk)).1 with caller := some (0, true) }
      stop_lissenin =
      ({ socket_fd := 3, socketOpen := false,
         tarry := List.replicate NTHREADS .cancelRequested, gary := .ready, log_file := none,
         openStreams := [2], handlerInstalled := true, flushedAll := false, diags := [],
         status := none, caller := some (0, true) }, some .blocked) := by
  decide

/-! ### The global `log_file` -/

theorem call_log_file {p q : Proc} {c : Call} (h : p.call c = .ok q) :
    q.log_file = p.log_file := by
  cases c <;> simp only [Proc.call, Proc.fclose, Proc.join] at h
  all_goals (repeat' split at h)
  all_goals first
    | (cases h; rfl)
    | cases h

theorem reached_log_file (cs : List Call) (p q : Proc) (h : q ∈ reached p cs) :
    q.log_file = p.log_file := by
  induction cs generalizing p with
  | nil =>
    simp only [reached, List.mem_singleton] at h
    rw [h]
  | cons c cs ih =>
    simp only [reached] at h
    cases hc : p.call c with
    | error f =>
      simp only [hc, List.mem_singleton] at h
      rw [h]
    | ok r =>
      simp only [hc, List.mem_cons] at h
      rcases h with h | h
      · rw [h]
      · rw [ih r h, call_log_file hc]

/-- C5 (the code at the failing input). No state that `main` reaches has the global
`log_file` set, whatever the calls return. In the start where every call succeeds, `main`
opens the log as stream `2` and reaches its sleep loop with the global `log_file` still
`NULL`; `stop_lissenin` entered there completes thirteen calls and then stops at
`fclose(log_file)`, which has no defined behaviour for `NULL`: the stream that `main`
opened is still open and the process has not exited. -/
theorem opened_log_is_not_the_stream_closed :
    (∀ env q, q ∈ reached Proc.start (main env) → q.log_file = none) ∧
    Call.fopenLog (some 2) ∈ main Env.allOk ∧
    finish Proc.start (main Env.allOk) =
      ({ socket_fd := 3, socketOpen := true, tarry := List.replicate NTHREADS .running,
         gary := .ready, log_file := none, openStreams := [2], handlerInstalled := true,
         flushedAll := false, diags := [], status := none }, none) ∧
    (reached (finish Proc.start (main Env.allOk)).1 stop_lissenin).length = 14 ∧
    finish (finish Proc.start (main Env.allOk)).1 stop_lissenin =
      ({ socket_fd := 3, socketOpen := false, tarry := List.replicate NTHREADS .joined,
         gary := .destroyed, log_file := none, openStreams := [2], handlerInstalled := true,
         flushedAll := true, diags := [], status := none }, some .undefined) := by
  refine ⟨fun env q h => reached_log_file _ _ _ h, by decide, by decide, by decide, by decide⟩

/-- C6 (the code at the failing input). In the start where every call succeeds, `main`
goes through a state in which `stop_lissenin` is installed while the mutex is not
initialised and no worker is created; `stop_lissenin` entered there closes the socket and
stops at `pthread_cancel(tarry[0])`, which has no defined behaviour. Seven states of the
start have the handler installed before the mutex and all workers exist. -/
theorem handler_armed_before_workers_exist :
    (∃ p ∈ reached Proc.start (main Env.allOk),
      p.handlerInstalled = true ∧ p.gary = .uninitialised ∧
      p.tarry = List.replicate NTHREADS .unset ∧
      (reached p stop_lissenin).length = 2 ∧
      (finish p stop_lissenin).2 = some .undefined) ∧
    ((reached Proc.start (main Env.allOk)).filter fun p =>
      p.handlerInstalled && !(decide (p.gary = .ready) && p.tarry.all (· = .running))).length = 7 := by
  decide

/-! ### Fatal errors of the start -/

theorem call_tarry {p q : Proc} {c : Call} (hc : c.onThreads = false) (h : p.call c = .ok q) :
    q.tarry = p.tarry := by
  cases c <;> simp [Call.onThreads] at hc <;> simp only [Proc.call, Proc.fclose] at h
  all_goals (repeat' split at h)
  all_goals first
    | (cases h; rfl)
    | cases h

theorem reached_tarry (cs : List Call) (p q : Proc) (hcs : ∀ c ∈ cs, c.onThreads = false)
    (h : q ∈ reached p cs) : q.tarry = p.tarry := by
  induction cs generalizing p with
  | nil =>
    simp only [reached, List.mem_singleton] at h
    rw [h]
  | cons c cs ih =>
    simp only [reached] at h
    cases hc : p.call c with
    | error f =>
      simp only [hc, List.mem_singleton] at h
      rw [h]
    | ok r =>
      simp only [hc, List.mem_cons] at h
      rcases h with h | h
      · rw [h]
      · rw [ih r (fun x hx => hcs x (List.mem_cons_of_mem c hx)) h,
          call_tarry (hcs c (List.mem_cons_self c cs)) hc]

theorem fopenLog_not_mem_createThreads (env : Env) (f : Option Nat) (k i : Nat) :
    Call.fopenLog f ∉ createThreads env k i := by
  induction k generalizing i with
  | zero => simp [createThreads]
  | succ k ih =>
    simp only [createThreads]
    split_ifs
    · simp
    · simpa using ih (i + 1)

/-- The calls of `main` when the bind fails or the log cannot be opened. -/
theorem main_of_fatal (env : Env)
    (hfail : env.bindRet ≠ 0 ∨ Call.fopenLog none ∈ main env) :
    main env = [.socket env.socketRet, .bind env.bindRet, .fprintfStderr .bindFailed,
        .exit EXIT_FAILURE] ∨
    main env = [.socket env.socketRet, .bind env.bindRet, .stat env.statRet,
        .fopenPid env.pidFile, .fork env.forkRet, .umask, .getpid, .fprintfPid env.pidFile,
        .fclosePid env.pidFile, .fopenLog none, .perror .logOpenFailed, .exit EXIT_FAILURE] := by
  rcases hfail with hb | hl
  · left
    simp [main, hb]
  · by_cases hb : env.bindRet = 0
    · right
      unfold main at hl ⊢
      simp only [hb, ne_eq, not_true_eq_false, if_false] at hl ⊢
      by_cases h1 : env.statRet = 0
      · simp [h1] at hl
      · simp only [h1, if_false] at hl ⊢
        by_cases h2 : env.forkRet < 0
        · simp [h2] at hl
        · simp only [h2, if_false] at hl ⊢
          by_cases h3 : env.forkRet > 0
          · simp [h3] at hl
          · simp only [h3, if_false] at hl ⊢
            by_cases h4 : env.logFile = none
            · simp [h4]
            · exfalso
              simp only [h4, if_false] at hl
              have h5 : ∀ f, Call.fopenLog f ∉ createThreads env NTHREADS 0 :=
                fun f => fopenLog_not_mem_createThreads env f NTHREADS 0
              have h6 := h5 none
              split_ifs at hl <;> simp [h4, h6] at hl <;> exact h4 hl.symm
    · left
      simp [main, hb]

/-- C9 (fatal errors of the start). If the bind fails, or `main` gets `NULL` from opening
the log, then the calls of `main` end with the diagnostic (`fprintf(stderr, ...)` for the
bind, `perror` for the log) followed by `exit(EXIT_FAILURE)`; no `pthread_create` is among
them; no state of the run has a worker in `tarry`; and the run ends with status
`EXIT_FAILURE` and the diagnostic emitted (when the log is the failure, provided the PID
file could be opened before). -/
theorem fatal_start_creates_no_worker (env : Env)
    (hfail : env.bindRet ≠ 0 ∨ Call.fopenLog none ∈ main env) :
    (∃ pre, main env = pre ++ [.fprintfStderr .bindFailed, .exit EXIT_FAILURE] ∨
      main env = pre ++ [.perror .logOpenFailed, .exit EXIT_FAILURE]) ∧
    (∀ i ret, Call.create i ret ∉ main env) ∧
    (∀ q ∈ reached Proc.start (main env), q.tarry = List.replicate NTHREADS .unset) ∧
    (env.bindRet ≠ 0 ∨ env.pidFile ≠ none →
      (finish Proc.start (main env)).2 = none ∧
      (finish Proc.start (main env)).1.status = some EXIT_FAILURE ∧
      ((finish Proc.start (main env)).1.diags = [.bindFailed] ∨
        (finish Proc.start (main env)).1.diags = [.logOpenFailed])) := by
  have hm := main_of_fatal env hfail
  have hno : ∀ c ∈ main env, c.onThreads = false := by
    rcases hm with h | h <;> rw [h] <;> simp [Call.onThreads]
  refine ⟨?_, ?_, ?_, ?_⟩
  · rcases hm with h | h
    · exact ⟨[.socket env.socketRet, .bind env.bindRet], Or.inl (by rw [h]; rfl)⟩
    · exact ⟨[.socket env.socketRet, .bind env.bindRet, .stat env.statRet,
        .fopenPid env.pidFile, .fork env.forkRet, .umask, .getpid, .fprintfPid env.pidFile,
        .fclosePid env.pidFile, .fopenLog none], Or.inr (by rw [h]; rfl)⟩
  · intro i ret hmem
    have := hno _ hmem
    simp [Call.onThreads] at this
  · intro q hq
    exact reached_tarry _ _ _ hno hq
  · intro hrun
    by_cases hb : env.bindRet = 0
    · have hp : env.pidFile ≠ none := hrun.resolve_left (fun h => h hb)
      obtain ⟨f, hf⟩ := Option.ne_none_iff_exists'.1 hp
      rcases hm with h | h
      · simp [main, hb] at h
      · rw [h]
        simp [finish, Proc.call, Proc.fclose, Proc.start, hf]
    · simp [main, hb, finish, Proc.call, Proc.start]

/-- Witness of C9: the start in which only the opening of the log fails. -/
theorem fatal_start_creates_no_worker_witness :
    (∃ pre, main { Env.allOk with logFile := none }
          = pre ++ [.fprintfStderr .bindFailed, .exit EXIT_FAILURE] ∨
        main { Env.allOk with logFile := none }
          = pre ++ [.perror .logOpenFailed, .exit EXIT_FAILURE]) ∧
    (∀ i ret, Call.create i ret ∉ main { Env.allOk with logFile := none }) :=
  have h := fatal_start_creates_no_worker { Env.allOk with logFile := none } (Or.inr (by decide))
  ⟨h.1, h.2.1⟩

end Udplogd
